import Mathlib

/-!
Verification of the edit-command engine of `llm2fs` (`src/main.rs`).

Rust strings are modelled as lists of characters (`RStr`); `String::lines`,
`str::trim`, the Levenshtein scan of `find_in_file_lines`, and the
line-splicing commands are translated below.  Fallible operations return
`Option`/sum types; a Rust panic (out-of-range slice index or `usize`
underflow) is modelled as the explicit `panicked` outcome.
-/

/-- A Rust `String`/`&str`, modelled as its sequence of characters. -/
abbrev RStr := List Char

/-- Rust `char::is_whitespace`: the Unicode `White_Space` property. -/
def rustWhitespace (c : Char) : Bool :=
  c == ' ' || c == '\t' || c == '\n' || c == '\x0b' || c == '\x0c' || c == '\r' ||
  c == '\u0085' || c == ' ' || c == ' ' ||
  (' ' ≤ c && c ≤ ' ') || c == ' ' || c == ' ' ||
  c == ' ' || c == ' ' || c == '　'

/-- Rust `str::trim`: remove leading and trailing whitespace. -/
def trim (s : RStr) : RStr :=
  ((s.dropWhile rustWhitespace).reverse.dropWhile rustWhitespace).reverse

/-- `join("\n")` on a vector of lines. -/
def joinNL (l : List RStr) : RStr :=
  List.intercalate ['\n'] l

/-- Split a string at `'\n'` (every occurrence, keeping empty pieces). -/
def splitNL (s : RStr) : List RStr :=
  s.splitOn '\n'

/-- Strip one trailing `'\r'`, as Rust's `Lines` iterator does per piece. -/
def stripCR (l : RStr) : RStr :=
  if l.getLast? = some '\r' then l.dropLast else l

/-- Rust `str::lines`: split on `'\n'`; every piece that was terminated
by a `'\n'` — all but the last — has one trailing `'\r'` stripped (a
`"\r\n"` line ending); the final piece, the text after the last `'\n'`,
is kept verbatim (a trailing carriage return is included in the last
line) and dropped when it is empty (terminator semantics). -/
def rustLines (s : RStr) : List RStr :=
  let ps := splitNL s
  ps.dropLast.map stripCR ++
    (if ps.getLast? = some [] then [] else ps.getLast?.toList)

/-- Distance between `c1 :: s1` and the second argument, given the
distances from `s1` (the previous DP row); see `levenshtein_distance`. -/
def levAux (c1 : Char) (f : RStr → Nat) : RStr → Nat
  | [] => f [] + 1
  | c2 :: s2 =>
      min (min (f (c2 :: s2) + 1) (levAux c1 f s2 + 1))
          (f s2 + (if c1 = c2 then 0 else 1))

/-- The character-level edit distance of `levenshtein_distance` in
`main.rs`.  The Rust code fills the standard DP matrix
`matrix[i+1][j+1] = min (min (matrix[i][j+1]+1) (matrix[i+1][j]+1))
(matrix[i][j]+cost)`; this pair of structural recursions computes the
same recurrence on the remaining suffixes (the defining equations are
proved as `levd_nil_left`, `levd_nil_right` and
`levd_cons_cons` below). -/
def levenshtein_distance : RStr → RStr → Nat
  | [], s2 => s2.length
  | c1 :: s1, s2 => levAux c1 (levenshtein_distance s1) s2

/-- `non_empty_needle` in `find_in_file_lines`: trim every needle line and
drop the blank ones. -/
def nonEmptyNeedle (needle : List RStr) : List RStr :=
  (needle.map trim).filter (fun s => !s.isEmpty)

/-- The normalized text of the window of `k` lines starting at index `i`:
each line trimmed, joined with `"\n"`. -/
def windowJoined (file_lines : List RStr) (k i : Nat) : RStr :=
  joinNL (((file_lines.drop i).take k).map trim)

/-- Distance computed in the loop body of `find_in_file_lines` for the
window at index `i`. -/
def windowDistance (file_lines needle : List RStr) (i : Nat) : Nat :=
  levenshtein_distance (joinNL (nonEmptyNeedle needle)) (windowJoined file_lines needle.length i)

/-- Number of windows produced by `file_lines.windows(needle.len())`. -/
def numWindows (file_lines needle : List RStr) : Nat :=
  if needle.length ≤ file_lines.length then file_lines.length - needle.length + 1 else 0

/-- The `for (i, window) in … .enumerate()` loop of `find_in_file_lines`,
with its `min_distance` / `best_match` locals and the `break` on an exact
match.  `min_distance = usize::MAX, best_match = None` is modelled by the
`none` accumulator (sound for distances below `2^64`, i.e. all reachable
ones); the first scanned window always becomes the best candidate. -/
def scanMin (f : Nat → Nat) : List Nat → Option (Nat × Nat) → Option (Nat × Nat)
  | [], best => best
  | i :: rest, best =>
      let d := f i
      let best2 : Nat × Nat :=
        match best with
        | none => (i, d)
        | some (bi, bd) => if d < bd then (i, d) else (bi, bd)
      if d = 0 then some best2 else scanMin f rest (some best2)

/-- Decide the acceptance inequality by an equivalent integer test, so
that concrete runs of `find_in_file_lines` evaluate inside the kernel
(the rational operations of `Batteries` are `irreducible`).  The
equivalence is restated as `similarity_iff` below. -/
instance similarityDecidable (bd len : Nat) :
    Decidable ((95 : ℚ) / 100 ≤ 1 - (bd : ℚ) / (len : ℚ)) :=
  decidable_of_iff (len = 0 ∨ 20 * bd ≤ len) (by
    rcases Nat.eq_zero_or_pos len with h | h
    · subst h
      simp only [Nat.cast_zero, div_zero, sub_zero]
      norm_num
    · have hl : (0 : ℚ) < (len : ℚ) := by exact_mod_cast h
      have h1 : ((95 : ℚ) / 100 ≤ 1 - (bd : ℚ) / (len : ℚ)) ↔
          ((bd : ℚ) / (len : ℚ) ≤ 1 / 20) := by
        constructor <;> intro h2 <;> linarith
      rw [h1, div_le_div_iff₀ hl (by norm_num : (0 : ℚ) < 20), one_mul]
      constructor
      · rintro (h2 | h2)
        · omega
        · have h3 : ((20 * bd : Nat) : ℚ) ≤ (len : ℚ) := by exact_mod_cast h2
          push_cast at h3
          linarith
      · intro h2
        refine Or.inr ?_
        have h3 : ((20 * bd : Nat) : ℚ) ≤ (len : ℚ) := by push_cast; linarith
        exact_mod_cast h3)

/-- `find_in_file_lines` from `main.rs`.  The final acceptance test is the
source's `1.0 - (min_distance as f64 / needle_len as f64) >= 0.95`,
stated over `ℚ` (exact for the integer operands that occur here). -/
def find_in_file_lines (file_lines needle : List RStr) : Option Nat :=
  let ne := nonEmptyNeedle needle
  if ne.isEmpty then some 0
  else
    let needle_len := (joinNL ne).length
    match scanMin (windowDistance file_lines needle)
        (List.range (numWindows file_lines needle)) none with
    | none => none
    | some (bi, bd) =>
        if (95 : ℚ) / 100 ≤ 1 - (bd : ℚ) / (needle_len : ℚ) then some bi
        else none

/-- Outcome of one in-memory line edit; `panicked` stands for a Rust
panic (slice index out of range / `usize` underflow). -/
inductive EditResult
  | ok (newLines : List RStr)
  | markerNotFound
  | panicked
deriving DecidableEq

/-- The marker-echo test and drop shared by `InsertBefore` and
`InsertAfter`: `insert_lines.len() >= marker_lines.len()` and the first
`marker_lines.len()` insert lines, trimmed, equal the trimmed marker. -/
def echoTrim (insert0 marker : List RStr) : List RStr :=
  if marker.length ≤ insert0.length ∧
      (insert0.take marker.length).map trim = marker.map trim then
    insert0.drop marker.length
  else insert0

/-- `Command::InsertBefore` on the file's lines:
`new = lines[..index] ++ insert ++ lines[index..]`. -/
def insertBeforeLines (file_lines insert0 marker : List RStr) : EditResult :=
  match find_in_file_lines file_lines marker with
  | none => .markerNotFound
  | some index =>
      .ok (file_lines.take index ++ echoTrim insert0 marker ++ file_lines.drop index)

/-- `Command::InsertAfter` on the file's lines.  The slice
`file_lines[..=index + marker.len() - 1]` underflows when
`index + marker.len() = 0` and is out of range when
`index + marker.len() > file_lines.len()`; both are Rust panics. -/
def insertAfterLines (file_lines insert0 marker : List RStr) : EditResult :=
  if marker.length = 0 ∧ file_lines = [] then .ok insert0
  else
    match find_in_file_lines file_lines marker with
    | none => .markerNotFound
    | some index =>
        if index + marker.length = 0 ∨ file_lines.length < index + marker.length then
          .panicked
        else
          .ok (file_lines.take (index + marker.length) ++ echoTrim insert0 marker ++
                file_lines.drop (index + marker.length))

/-- `Command::Delete` on the file's lines:
`new = lines[..start] ++ lines[start + target.len()..]`; the second slice
is a panic when it starts past the end. -/
def deleteLines (file_lines target : List RStr) : EditResult :=
  match find_in_file_lines file_lines target with
  | none => .markerNotFound
  | some start =>
      if file_lines.length < start + target.length then .panicked
      else .ok (file_lines.take start ++ file_lines.drop (start + target.length))

/-- `InsertBefore` at the level of the file's byte content: read the lines,
splice, write back `new_lines.join("\n")`.  `none` covers both the
`bail!` and a panic. -/
def insertBeforeContent (content : RStr) (insert0 marker : List RStr) : Option RStr :=
  match insertBeforeLines (rustLines content) insert0 marker with
  | .ok l => some (joinNL l)
  | _ => none

/-- `InsertAfter` at the level of the file's byte content. -/
def insertAfterContent (content : RStr) (insert0 marker : List RStr) : Option RStr :=
  match insertAfterLines (rustLines content) insert0 marker with
  | .ok l => some (joinNL l)
  | _ => none

/-- `Delete` at the level of the file's byte content. -/
def deleteContent (content : RStr) (target : List RStr) : Option RStr :=
  match deleteLines (rustLines content) target with
  | .ok l => some (joinNL l)
  | _ => none

/-- One component of a Rust `Path`. -/
inductive PathComp
  | cur
  | parentDir
  | normal (name : RStr)
deriving DecidableEq

/-- A Rust `PathBuf`: whether it has a root, and its components. -/
structure RPath where
  absolute : Bool
  comps : List PathComp
deriving DecidableEq

/-- `path.starts_with("..")`: the component sequence begins with `..`. -/
def startsWithParent : List PathComp → Bool
  | PathComp.parentDir :: _ => true
  | _ => false

/-- `is_file_in_current_directory` from `main.rs`:
`path.is_relative() && !path.starts_with("..")`. -/
def is_file_in_current_directory (p : RPath) : Bool :=
  !p.absolute && !startsWithParent p.comps

/-- Depth-tracking helper for `escapesWorkingDir`. -/
def escapesAux : Nat → List PathComp → Bool
  | _, [] => false
  | depth, PathComp.cur :: rest => escapesAux depth rest
  | depth, PathComp.normal _ :: rest => escapesAux (depth + 1) rest
  | depth, PathComp.parentDir :: rest =>
      match depth with
      | 0 => true
      | d + 1 => escapesAux d rest

/-- Modelled from the spec: a path "escapes the working directory (via
parent-traversal segments)" when it is absolute or some `..` component
climbs above the directory the path starts in. -/
def escapesWorkingDir (p : RPath) : Bool :=
  p.absolute || escapesAux 0 p.comps

/-- The `Command` enum of `main.rs`.  `LineOrLines` fields are modelled
directly by their `lines()` vector (a scalar becomes a one-element list;
`len()` agrees with the vector's length in both cases). -/
inductive Command
  | insertAfter (insert_lines marker_lines : List RStr)
  | insertBefore (insert_lines marker_lines : List RStr)
  | delete (delete_lines : List RStr)
  | createFile (new_lines : List RStr)
  | renameFile (new_filename : RPath)
  | deleteFile

/-- A `Change` record: target file, command, reason. -/
structure Change where
  filename : RPath
  command : Command
  reason : RStr

/-- The filesystem, as a map from paths to file contents. -/
def FS := RPath → Option RStr

/-- Per-record outcome: `ok`, or the failure that makes `main` bail. -/
inductive Outcome
  | ok
  | alreadyExists
  | ioError
  | markerNotFound
  | panicked
deriving DecidableEq

/-- Execute one command against the filesystem, returning the outcome and
the new filesystem.  Every failing branch leaves the filesystem
untouched, as the corresponding `bail!`/`?`/panic does. -/
def applyCommand (fs : FS) (path : RPath) : Command → Outcome × FS
  | .createFile new_lines =>
      if (fs path).isSome then (.alreadyExists, fs)
      else (.ok, fun q => if q = path then some (joinNL new_lines) else fs q)
  | .renameFile new_filename =>
      match fs path with
      | none => (.ioError, fs)
      | some content =>
          (.ok, fun q =>
            if q = new_filename then some content
            else if q = path then none else fs q)
  | .deleteFile =>
      match fs path with
      | none => (.ioError, fs)
      | some _ => (.ok, fun q => if q = path then none else fs q)
  | .insertBefore insert0 marker =>
      match fs path with
      | none => (.ioError, fs)
      | some content =>
          match insertBeforeLines (rustLines content) insert0 marker with
          | .ok l => (.ok, fun q => if q = path then some (joinNL l) else fs q)
          | .markerNotFound => (.markerNotFound, fs)
          | .panicked => (.panicked, fs)
  | .insertAfter insert0 marker =>
      match fs path with
      | none => (.ioError, fs)
      | some content =>
          match insertAfterLines (rustLines content) insert0 marker with
          | .ok l => (.ok, fun q => if q = path then some (joinNL l) else fs q)
          | .markerNotFound => (.markerNotFound, fs)
          | .panicked => (.panicked, fs)
  | .delete target =>
      match fs path with
      | none => (.ioError, fs)
      | some content =>
          match deleteLines (rustLines content) target with
          | .ok l => (.ok, fun q => if q = path then some (joinNL l) else fs q)
          | .markerNotFound => (.markerNotFound, fs)
          | .panicked => (.panicked, fs)

/-- The per-change loop of `main`: a filename outside the current
directory is warned about and skipped; any command failure is a `bail!`
(or panic) that aborts the remaining records. -/
def runChanges (fs : FS) : List Change → FS
  | [] => fs
  | c :: rest =>
      if is_file_in_current_directory c.filename then
        match applyCommand fs c.filename c.command with
        | (Outcome.ok, fs2) => runChanges fs2 rest
        | (_, fs2) => fs2
      else runChanges fs rest

/-- The marker-echo rule as the spec states it: when the leading insert
lines, compared after whitespace-trimming each line, equal the marker
lines, exactly those leading lines are dropped; otherwise the insert is
kept unchanged.  (Refinement target for `echoTrim`, which adds the
redundant explicit length guard of the source.) -/
def claimEcho (insert0 marker : List RStr) : List RStr :=
  if (insert0.take marker.length).map trim = marker.map trim then
    insert0.drop marker.length
  else insert0

/-- A line that survives a write/read round trip through `join("\n")` and
`str::lines`: it has no embedded newline and no trailing carriage
return. -/
abbrev cleanLine (l : RStr) : Prop :=
  ('\n' : Char) ∉ l ∧ l.getLast? ≠ some '\r'

/-! ### Basic lemmas about the edit distance -/

theorem levd_nil_left (s2 : RStr) : levenshtein_distance [] s2 = s2.length := rfl

theorem levd_nil_right (s1 : RStr) : levenshtein_distance s1 [] = s1.length := by
  induction s1 with
  | nil => rfl
  | cons c1 s1 ih => simp [levenshtein_distance, levAux, ih]

theorem levd_cons_cons (c1 c2 : Char) (s1 s2 : RStr) :
    levenshtein_distance (c1 :: s1) (c2 :: s2) =
      min (min (levenshtein_distance s1 (c2 :: s2) + 1)
               (levenshtein_distance (c1 :: s1) s2 + 1))
          (levenshtein_distance s1 s2 + (if c1 = c2 then 0 else 1)) := rfl

theorem levd_self (s : RStr) : levenshtein_distance s s = 0 := by
  induction s with
  | nil => rfl
  | cons c s ih =>
      rw [levd_cons_cons]
      simp [ih]

theorem eq_of_levd_eq_zero :
    ∀ {s1 s2 : RStr}, levenshtein_distance s1 s2 = 0 → s1 = s2
  | [], s2, h => by
      rw [levd_nil_left] at h
      exact (List.length_eq_zero.mp h).symm
  | c1 :: s1, [], h => by
      rw [levd_nil_right] at h
      exact absurd h (by simp)
  | c1 :: s1, c2 :: s2, h => by
      rw [levd_cons_cons] at h
      rcases Nat.min_eq_zero_iff.mp h with h' | h'
      · rcases Nat.min_eq_zero_iff.mp h' with h'' | h'' <;> omega
      · have hc : c1 = c2 := by by_contra hne; simp [hne] at h'
        have := eq_of_levd_eq_zero (show levenshtein_distance s1 s2 = 0 by omega)
        rw [hc, this]

/-! ### The similarity threshold as an integer test -/

theorem similarity_iff (bd len : Nat) :
    ((95 : ℚ) / 100 ≤ 1 - (bd : ℚ) / (len : ℚ)) ↔ (len = 0 ∨ 20 * bd ≤ len) := by
  rcases Nat.eq_zero_or_pos len with h | h
  · subst h
    simp only [Nat.cast_zero, div_zero, sub_zero]
    norm_num
  · have hl : (0 : ℚ) < (len : ℚ) := by exact_mod_cast h
    have h1 : ((95 : ℚ) / 100 ≤ 1 - (bd : ℚ) / (len : ℚ)) ↔
        ((bd : ℚ) / (len : ℚ) ≤ 1 / 20) := by
      constructor <;> intro h2 <;> linarith
    rw [h1, div_le_div_iff₀ hl (by norm_num : (0 : ℚ) < 20), one_mul]
    constructor
    · intro h2
      refine Or.inr ?_
      have h3 : ((20 * bd : Nat) : ℚ) ≤ (len : ℚ) := by push_cast; linarith
      exact_mod_cast h3
    · rintro (h2 | h2)
      · omega
      · have h3 : ((20 * bd : Nat) : ℚ) ≤ (len : ℚ) := by exact_mod_cast h2
        push_cast at h3
        linarith

/-! ### Lemmas about `trim`, `joinNL`, `splitNL` and `rustLines` -/

theorem mem_of_mem_trim {c : Char} {s : RStr} (h : c ∈ trim s) : c ∈ s := by
  unfold trim at h
  rw [List.mem_reverse] at h
  have h2 := (List.dropWhile_sublist rustWhitespace).subset h
  rw [List.mem_reverse] at h2
  exact (List.dropWhile_sublist rustWhitespace).subset h2

theorem nl_not_mem_trim {l : RStr} (h : ('\n' : Char) ∉ l) : ('\n' : Char) ∉ trim l :=
  fun hc => h (mem_of_mem_trim hc)

theorem splitNL_joinNL (L : List RStr) (hL : L ≠ [])
    (hfree : ∀ l ∈ L, ('\n' : Char) ∉ l) : splitNL (joinNL L) = L := by
  unfold splitNL joinNL
  exact List.splitOn_intercalate L '\n' hfree hL

theorem joinNL_inj {L1 L2 : List RStr} (hlen : L1.length = L2.length)
    (h1 : ∀ l ∈ L1, ('\n' : Char) ∉ l) (h2 : ∀ l ∈ L2, ('\n' : Char) ∉ l)
    (h : joinNL L1 = joinNL L2) : L1 = L2 := by
  cases L1 with
  | nil =>
      cases L2 with
      | nil => rfl
      | cons b t => simp at hlen
  | cons a s =>
      cases L2 with
      | nil => simp at hlen
      | cons b t =>
          have e1 := splitNL_joinNL (a :: s) (by simp) h1
          have e2 := splitNL_joinNL (b :: t) (by simp) h2
          rw [← e1, ← e2, h]

theorem splitNL_ne_nil (s : RStr) : splitNL s ≠ [] :=
  List.splitOnP_ne_nil _ s

theorem splitNL_cons (c : Char) (t : RStr) :
    splitNL (c :: t) =
      if c = '\n' then [] :: splitNL t else (splitNL t).modifyHead (List.cons c) := by
  simp only [splitNL, List.splitOn, List.splitOnP_cons]
  by_cases h : c = '\n' <;> simp [h]

theorem splitNL_append_newline (t : RStr) :
    splitNL (t ++ ['\n']) = splitNL t ++ [[]] := by
  induction t with
  | nil =>
      simp [splitNL, List.splitOn, List.splitOnP_cons, List.splitOnP_nil]
  | cons c t ih =>
      rw [List.cons_append, splitNL_cons, splitNL_cons]
      by_cases h : c = '\n'
      · simp [h, ih]
      · rw [if_neg h, if_neg h, ih]
        cases hx : splitNL t with
        | nil => exact absurd hx (splitNL_ne_nil t)
        | cons a r => simp [List.modifyHead]

theorem splitNL_getLast_ne (t : RStr) (h1 : t ≠ []) (h2 : t.getLast? ≠ some '\n') :
    (splitNL t).getLast? ≠ some [] := by
  induction t with
  | nil => exact absurd rfl h1
  | cons c t ih =>
      cases t with
      | nil =>
          have hc : c ≠ '\n' := by simpa using h2
          rw [splitNL_cons, if_neg hc]
          simp [splitNL]
      | cons d r =>
          have h2' : (d :: r).getLast? ≠ some '\n' := by
            rwa [List.getLast?_cons_cons] at h2
          have ihh := ih (by simp) h2'
          rw [splitNL_cons]
          by_cases hc : c = '\n'
          · rw [if_pos hc]
            cases hx : splitNL (d :: r) with
            | nil => exact absurd hx (splitNL_ne_nil _)
            | cons a s =>
                rw [hx] at ihh
                simpa [List.getLast?_cons_cons] using ihh
          · rw [if_neg hc]
            cases hx : splitNL (d :: r) with
            | nil => exact absurd hx (splitNL_ne_nil _)
            | cons a s =>
                rw [hx] at ihh
                cases s with
                | nil => simp [List.modifyHead]
                | cons b u =>
                    simpa [List.modifyHead, List.getLast?_cons_cons] using ihh

theorem splitNL_getLast_last (u : RStr) (h1 : u ≠ []) (h2 : u.getLast? ≠ some '\n') :
    ∃ v, (splitNL u).getLast? = some v ∧ v ≠ [] ∧ v.getLast? = u.getLast? := by
  induction u with
  | nil => exact absurd rfl h1
  | cons c t ih =>
      cases t with
      | nil =>
          have hc : c ≠ '\n' := by simpa using h2
          have hnil : splitNL ([] : RStr) = [[]] := by simp [splitNL]
          rw [splitNL_cons, if_neg hc, hnil]
          exact ⟨[c], by simp [List.modifyHead], by simp, by simp⟩
      | cons d r =>
          have h2' : (d :: r).getLast? ≠ some '\n' := by
            rwa [List.getLast?_cons_cons] at h2
          obtain ⟨v, hv, hvne, hvlast⟩ := ih (by simp) h2'
          rw [splitNL_cons]
          by_cases hc : c = '\n'
          · rw [if_pos hc]
            refine ⟨v, ?_, hvne, ?_⟩
            · cases hx : splitNL (d :: r) with
              | nil => exact absurd hx (splitNL_ne_nil _)
              | cons a u =>
                  rw [hx] at hv
                  rw [List.getLast?_cons_cons]
                  exact hv
            · rw [List.getLast?_cons_cons]
              exact hvlast
          · rw [if_neg hc]
            cases hx : splitNL (d :: r) with
            | nil => exact absurd hx (splitNL_ne_nil _)
            | cons a u =>
                rw [hx] at hv
                cases u with
                | nil =>
                    have hav : a = v := by simpa using hv
                    refine ⟨c :: v, by simp [List.modifyHead, hav], by simp, ?_⟩
                    cases v with
                    | nil => exact absurd rfl hvne
                    | cons x xs =>
                        rw [List.getLast?_cons_cons, hvlast, List.getLast?_cons_cons]
                | cons b u2 =>
                    refine ⟨v, ?_, hvne, ?_⟩
                    · simp only [List.modifyHead]
                      rw [List.getLast?_cons_cons]
                      rw [List.getLast?_cons_cons] at hv
                      exact hv
                    · rw [List.getLast?_cons_cons]
                      exact hvlast

theorem rustLines_joinNL (L : List RStr)
    (h1 : ∀ l ∈ L, ('\n' : Char) ∉ l) (h2 : ∀ l ∈ L, l.getLast? ≠ some '\r')
    (h3 : L.getLast? ≠ some []) : rustLines (joinNL L) = L := by
  cases L with
  | nil => decide
  | cons a t =>
      have hne : (a :: t) ≠ [] := by simp
      have hsplit := splitNL_joinNL (a :: t) hne h1
      simp only [rustLines]
      rw [hsplit, if_neg h3, List.getLast?_eq_getLast _ hne, Option.toList_some]
      have hs : ∀ l ∈ (a :: t).dropLast, stripCR l = l := by
        intro l hl
        unfold stripCR
        rw [if_neg (h2 l (List.dropLast_subset _ hl))]
      have hmap : (a :: t).dropLast.map stripCR = (a :: t).dropLast :=
        calc (a :: t).dropLast.map stripCR
            = (a :: t).dropLast.map id := List.map_congr_left hs
          _ = (a :: t).dropLast := List.map_id _
      rw [hmap]
      exact List.dropLast_append_getLast hne

theorem rustLines_append_newline (u : RStr) (h1 : u ≠ []) (h2 : u.getLast? ≠ some '\n')
    (h3 : u.getLast? ≠ some '\r') :
    rustLines (u ++ ['\n']) = rustLines u := by
  obtain ⟨v, hv, hvne, hvlast⟩ := splitNL_getLast_last u h1 h2
  have hne : splitNL u ≠ [] := splitNL_ne_nil u
  simp only [rustLines]
  rw [splitNL_append_newline, List.dropLast_concat, List.getLast?_concat, if_pos rfl,
    List.append_nil, hv, if_neg (fun hc => hvne (Option.some.inj hc)), Option.toList_some]
  have hgl : (splitNL u).getLast hne = v := by
    have hq := List.getLast?_eq_getLast (splitNL u) hne
    rw [hv] at hq
    exact (Option.some.inj hq).symm
  conv_lhs => rw [← List.dropLast_append_getLast hne]
  rw [List.map_append, hgl]
  have hscr : stripCR v = v := by
    unfold stripCR
    rw [if_neg (by rw [hvlast]; exact h3)]
  rw [List.map_cons, List.map_nil, hscr]

/-! ### The scan of `find_in_file_lines` returns the leftmost minimum -/

theorem scanMin_aux (f : Nat → Nat) :
    ∀ (n s bi : Nat), bi < s → 0 < f bi →
      ∃ j, scanMin f (List.range' s n) (some (bi, f bi)) = some (j, f j) ∧
        (j = bi ∨ (s ≤ j ∧ j < s + n)) ∧
        f j ≤ f bi ∧
        (∀ i, s ≤ i → i < s + n → f j ≤ f i) ∧
        (j ≠ bi → f j < f bi) ∧
        (∀ i, s ≤ i → i < s + n → i < j → f j < f i) := by
  intro n
  induction n with
  | zero =>
      intro s bi hbi hpos
      refine ⟨bi, rfl, Or.inl rfl, le_refl _, ?_, ?_, ?_⟩
      · intro i h1 h2; omega
      · intro h; exact absurd rfl h
      · intro i h1 h2; omega
  | succ n ih =>
      intro s bi hbi hpos
      rw [List.range'_succ]
      simp only [scanMin]
      by_cases hz : f s = 0
      · have hlt : f s < f bi := by omega
        rw [if_pos hlt, if_pos hz]
        refine ⟨s, rfl, Or.inr ⟨le_refl s, by omega⟩, by omega, ?_, ?_, ?_⟩
        · intro i h1 h2; omega
        · intro h; omega
        · intro i h1 h2 h3; omega
      · have hpos' : 0 < f s := Nat.pos_of_ne_zero hz
        rw [if_neg hz]
        by_cases hlt : f s < f bi
        · rw [if_pos hlt]
          obtain ⟨j, hEq, hloc, hle, hmin, hne, hltmin⟩ := ih (s + 1) s (by omega) hpos'
          refine ⟨j, hEq, ?_, by omega, ?_, ?_, ?_⟩
          · rcases hloc with h | ⟨h1, h2⟩
            · exact Or.inr ⟨by omega, by omega⟩
            · exact Or.inr ⟨by omega, by omega⟩
          · intro i h1 h2
            by_cases hi : i = s
            · subst hi; exact hle
            · exact hmin i (by omega) (by omega)
          · intro h; omega
          · intro i h1 h2 h3
            by_cases hi : i = s
            · subst hi
              exact hne (by omega)
            · exact hltmin i (by omega) (by omega) h3
        · rw [if_neg hlt]
          obtain ⟨j, hEq, hloc, hle, hmin, hne, hltmin⟩ := ih (s + 1) bi (by omega) hpos
          refine ⟨j, hEq, ?_, hle, ?_, hne, ?_⟩
          · rcases hloc with h | ⟨h1, h2⟩
            · exact Or.inl h
            · exact Or.inr ⟨by omega, by omega⟩
          · intro i h1 h2
            by_cases hi : i = s
            · subst hi; omega
            · exact hmin i (by omega) (by omega)
          · intro i h1 h2 h3
            by_cases hi : i = s
            · subst hi
              have hjb : j ≠ bi := by omega
              have := hne hjb
              omega
            · exact hltmin i (by omega) (by omega) h3

theorem scanMin_range (f : Nat → Nat) (n : Nat) (hn : 0 < n) :
    ∃ j, j < n ∧ scanMin f (List.range n) none = some (j, f j) ∧
      (∀ i, i < n → f j ≤ f i) ∧ (∀ i, i < j → f j < f i) := by
  obtain ⟨m, rfl⟩ : ∃ m, n = m + 1 := ⟨n - 1, by omega⟩
  rw [List.range_eq_range', List.range'_succ]
  simp only [scanMin]
  by_cases hz : f 0 = 0
  · rw [if_pos hz]
    exact ⟨0, by omega, rfl, fun i _ => by omega, fun i h => by omega⟩
  · rw [if_neg hz]
    obtain ⟨j, hEq, hloc, hle, hmin, hne, hltmin⟩ :=
      scanMin_aux f m 1 0 (by omega) (Nat.pos_of_ne_zero hz)
    refine ⟨j, ?_, hEq, ?_, ?_⟩
    · rcases hloc with h | ⟨h1, h2⟩ <;> omega
    · intro i hi
      by_cases h0 : i = 0
      · subst h0; exact hle
      · exact hmin i (by omega) (by omega)
    · intro i hi
      by_cases h0 : i = 0
      · subst h0
        exact hne (by omega)
      · exact hltmin i (by omega) (by omega) hi

/-! ### Characterization of `find_in_file_lines` -/

theorem find_blank (file_lines needle : List RStr) (h : ∀ l ∈ needle, trim l = []) :
    find_in_file_lines file_lines needle = some 0 := by
  have hne : nonEmptyNeedle needle = [] := by
    unfold nonEmptyNeedle
    rw [List.filter_eq_nil_iff]
    intro a ha
    obtain ⟨l, hl, rfl⟩ := List.mem_map.mp ha
    simp [h l hl]
  simp [find_in_file_lines, hne]

theorem find_too_long (file_lines needle : List RStr)
    (h : nonEmptyNeedle needle ≠ []) (hk : file_lines.length < needle.length) :
    find_in_file_lines file_lines needle = none := by
  have hne : ¬ ((nonEmptyNeedle needle).isEmpty = true) := by
    simpa [List.isEmpty_iff] using h
  have h0 : numWindows file_lines needle = 0 := by
    unfold numWindows
    rw [if_neg (by omega)]
  simp only [find_in_file_lines, h0]
  rw [if_neg hne]
  simp [scanMin]

theorem find_spec (file_lines needle : List RStr)
    (h : nonEmptyNeedle needle ≠ []) (hk : needle.length ≤ file_lines.length) :
    ∃ j, j < numWindows file_lines needle ∧
      (∀ i, i < numWindows file_lines needle →
        windowDistance file_lines needle j ≤ windowDistance file_lines needle i) ∧
      (∀ i, i < j →
        windowDistance file_lines needle j < windowDistance file_lines needle i) ∧
      (((95 : ℚ) / 100 ≤ 1 - (windowDistance file_lines needle j : ℚ) /
          (((joinNL (nonEmptyNeedle needle)).length : ℚ))) →
        find_in_file_lines file_lines needle = some j) ∧
      (¬ ((95 : ℚ) / 100 ≤ 1 - (windowDistance file_lines needle j : ℚ) /
          (((joinNL (nonEmptyNeedle needle)).length : ℚ))) →
        find_in_file_lines file_lines needle = none) := by
  have hne : ¬ ((nonEmptyNeedle needle).isEmpty = true) := by
    simpa [List.isEmpty_iff] using h
  have hnw : 0 < numWindows file_lines needle := by
    unfold numWindows
    rw [if_pos hk]
    omega
  obtain ⟨j, hj, hEq, hmin, hlt⟩ :=
    scanMin_range (windowDistance file_lines needle) _ hnw
  refine ⟨j, hj, hmin, hlt, ?_, ?_⟩
  · intro hacc
    simp only [find_in_file_lines]
    rw [if_neg hne, hEq]
    exact if_pos hacc
  · intro hacc
    simp only [find_in_file_lines]
    rw [if_neg hne, hEq]
    exact if_neg hacc

theorem nonEmptyNeedle_of_nonblank (needle : List RStr) (h : ∀ l ∈ needle, trim l ≠ []) :
    nonEmptyNeedle needle = needle.map trim := by
  unfold nonEmptyNeedle
  rw [List.filter_eq_self]
  intro a ha
  obtain ⟨l, hl, rfl⟩ := List.mem_map.mp ha
  simpa [List.isEmpty_iff] using h l hl

theorem nonEmptyNeedle_ne_nil (needle : List RStr) (h : ∃ l ∈ needle, trim l ≠ []) :
    nonEmptyNeedle needle ≠ [] := by
  obtain ⟨l, hl, hlt⟩ := h
  intro hc
  unfold nonEmptyNeedle at hc
  rw [List.filter_eq_nil_iff] at hc
  have := hc (trim l) (List.mem_map_of_mem trim hl)
  simp [List.isEmpty_iff] at this
  exact hlt this

theorem windowDistance_eq_zero_of_eq (file_lines needle : List RStr) (i : Nat)
    (hblank : ∀ l ∈ needle, trim l ≠ [])
    (heq : ((file_lines.drop i).take needle.length).map trim = needle.map trim) :
    windowDistance file_lines needle i = 0 := by
  unfold windowDistance windowJoined
  rw [heq, nonEmptyNeedle_of_nonblank needle hblank]
  exact levd_self _

theorem eq_of_windowDistance_eq_zero (file_lines needle : List RStr) (i : Nat)
    (hblank : ∀ l ∈ needle, trim l ≠ [])
    (hfreeN : ∀ l ∈ needle, ('\n' : Char) ∉ l)
    (hfreeF : ∀ l ∈ file_lines, ('\n' : Char) ∉ l)
    (hi : i + needle.length ≤ file_lines.length)
    (hz : windowDistance file_lines needle i = 0) :
    ((file_lines.drop i).take needle.length).map trim = needle.map trim := by
  unfold windowDistance windowJoined at hz
  rw [nonEmptyNeedle_of_nonblank needle hblank] at hz
  have hjoin := eq_of_levd_eq_zero hz
  have hlen : (needle.map trim).length =
      (((file_lines.drop i).take needle.length).map trim).length := by
    rw [List.length_map, List.length_map, List.length_take, List.length_drop]
    omega
  have hf1 : ∀ l ∈ needle.map trim, ('\n' : Char) ∉ l := by
    intro a ha
    obtain ⟨l, hl, rfl⟩ := List.mem_map.mp ha
    exact nl_not_mem_trim (hfreeN l hl)
  have hf2 : ∀ l ∈ ((file_lines.drop i).take needle.length).map trim,
      ('\n' : Char) ∉ l := by
    intro a ha
    obtain ⟨l, hl, rfl⟩ := List.mem_map.mp ha
    exact nl_not_mem_trim (hfreeF l (List.drop_subset i file_lines
      (List.take_subset needle.length (file_lines.drop i) hl)))
  exact (joinNL_inj hlen hf1 hf2 hjoin).symm

/-! ### Claims about the Marker Locator -/

/-- C6: for every `file_lines` (including the empty file) and every
`needle` that is empty or consists only of blank/whitespace-only lines,
`find_in_file_lines` returns index 0. -/
theorem claim_C6 (file_lines needle : List RStr) (h : ∀ l ∈ needle, trim l = []) :
    find_in_file_lines file_lines needle = some 0 :=
  find_blank file_lines needle h

/-- C6 witness: the blank needle `[" "]` against the file `["x"]` yields
index 0. -/
theorem claim_C6_witness :
    (∀ l ∈ ([[' ']] : List RStr), trim l = []) ∧
    find_in_file_lines [['x']] [[' ']] = some 0 :=
  ⟨by decide, claim_C6 [['x']] [[' ']] (by decide)⟩

/-- C2: for a needle with at least one non-blank line, when windows exist
`find_in_file_lines` returns the leftmost minimum-distance window's index
precisely when `similarity = 1 - (min_distance / needle_len) ≥ 0.95`, and
`none` otherwise; when the needle has more lines than the file it returns
`none`. -/
theorem claim_C2 (file_lines needle : List RStr)
    (h : ∃ l ∈ needle, trim l ≠ []) :
    (file_lines.length < needle.length → find_in_file_lines file_lines needle = none) ∧
    (needle.length ≤ file_lines.length →
      ∃ j, j < numWindows file_lines needle ∧
        (∀ i, i < numWindows file_lines needle →
          windowDistance file_lines needle j ≤ windowDistance file_lines needle i) ∧
        (∀ i, i < j → windowDistance file_lines needle j < windowDistance file_lines needle i) ∧
        (find_in_file_lines file_lines needle = some j ↔
          (95 : ℚ) / 100 ≤ 1 - (windowDistance file_lines needle j : ℚ) /
            (((joinNL (nonEmptyNeedle needle)).length : ℚ))) ∧
        (¬ ((95 : ℚ) / 100 ≤ 1 - (windowDistance file_lines needle j : ℚ) /
            (((joinNL (nonEmptyNeedle needle)).length : ℚ))) →
          find_in_file_lines file_lines needle = none)) := by
  have hne := nonEmptyNeedle_ne_nil needle h
  constructor
  · intro hk
    exact find_too_long file_lines needle hne hk
  · intro hk
    obtain ⟨j, hj, hmin, hlt, hacc, hrej⟩ := find_spec file_lines needle hne hk
    refine ⟨j, hj, hmin, hlt, ?_, hrej⟩
    constructor
    · intro hf
      by_contra hc
      rw [hrej hc] at hf
      exact Option.noConfusion hf
    · exact hacc

/-- C2 witness: file `["a"]`, needle `["b"]`; the needle has a non-blank
line, so the characterization applies (here the only window has distance
1 on a 1-character needle, similarity 0, and the result is `none`). -/
theorem claim_C2_witness :
    (∃ l ∈ ([['b']] : List RStr), trim l ≠ []) ∧
    ((([['a']] : List RStr).length < ([['b']] : List RStr).length →
      find_in_file_lines [['a']] [['b']] = none) ∧
    (([['b']] : List RStr).length ≤ ([['a']] : List RStr).length →
      ∃ j, j < numWindows [['a']] [['b']] ∧
        (∀ i, i < numWindows [['a']] [['b']] →
          windowDistance [['a']] [['b']] j ≤ windowDistance [['a']] [['b']] i) ∧
        (∀ i, i < j → windowDistance [['a']] [['b']] j < windowDistance [['a']] [['b']] i) ∧
        (find_in_file_lines [['a']] [['b']] = some j ↔
          (95 : ℚ) / 100 ≤ 1 - (windowDistance [['a']] [['b']] j : ℚ) /
            (((joinNL (nonEmptyNeedle [['b']])).length : ℚ))) ∧
        (¬ ((95 : ℚ) / 100 ≤ 1 - (windowDistance [['a']] [['b']] j : ℚ) /
            (((joinNL (nonEmptyNeedle [['b']])).length : ℚ))) →
          find_in_file_lines [['a']] [['b']] = none))) :=
  ⟨by decide, claim_C2 [['a']] [['b']] (by decide)⟩

/-- C1, amended: restricted to needles with no blank lines, over lines
that contain no embedded newline, a needle whose trimmed lines equal some
trimmed window is found at the leftmost such window's index. -/
theorem claim_C1_amended (file_lines needle : List RStr) (i : Nat)
    (hblank : ∀ l ∈ needle, trim l ≠ [])
    (hfreeN : ∀ l ∈ needle, ('\n' : Char) ∉ l)
    (hfreeF : ∀ l ∈ file_lines, ('\n' : Char) ∉ l)
    (hi : i + needle.length ≤ file_lines.length)
    (heq : ((file_lines.drop i).take needle.length).map trim = needle.map trim) :
    ∃ j, find_in_file_lines file_lines needle = some j ∧
      ((file_lines.drop j).take needle.length).map trim = needle.map trim ∧
      ∀ m, m < j → ((file_lines.drop m).take needle.length).map trim ≠ needle.map trim := by
  by_cases hn : needle = []
  · subst hn
    refine ⟨0, find_blank file_lines [] (by simp), by simp, ?_⟩
    intro m hm
    exact absurd hm (Nat.not_lt_zero m)
  · have hne : nonEmptyNeedle needle ≠ [] := by
      rw [nonEmptyNeedle_of_nonblank needle hblank]
      intro hc
      exact hn (List.map_eq_nil_iff.mp hc)
    have hk : needle.length ≤ file_lines.length := by omega
    obtain ⟨j, hj, hmin, hlt, hacc, hrej⟩ := find_spec file_lines needle hne hk
    have hi_lt : i < numWindows file_lines needle := by
      unfold numWindows
      rw [if_pos hk]
      omega
    have hdzi : windowDistance file_lines needle i = 0 :=
      windowDistance_eq_zero_of_eq file_lines needle i hblank heq
    have hdj : windowDistance file_lines needle j = 0 := by
      have := hmin i hi_lt
      omega
    have hfind : find_in_file_lines file_lines needle = some j := by
      apply hacc
      rw [hdj, similarity_iff 0 ((joinNL (nonEmptyNeedle needle)).length)]
      exact Or.inr (by omega)
    have hjN : j + needle.length ≤ file_lines.length := by
      unfold numWindows at hj
      rw [if_pos hk] at hj
      omega
    refine ⟨j, hfind, eq_of_windowDistance_eq_zero file_lines needle j hblank hfreeN
      hfreeF hjN hdj, ?_⟩
    intro m hm hmeq
    have hdm : windowDistance file_lines needle m = 0 :=
      windowDistance_eq_zero_of_eq file_lines needle m hblank hmeq
    have := hlt m hm
    omega

/-- C1 witness: the needle `["a"]` trim-equals the window of
`["x", "a"]` at index 1 and `find_in_file_lines` returns 1, which is the
leftmost trim-equal window. -/
theorem claim_C1_witness :
    (∀ l ∈ ([['a']] : List RStr), trim l ≠ []) ∧
    (∀ l ∈ ([['a']] : List RStr), ('\n' : Char) ∉ l) ∧
    (∀ l ∈ ([['x'], ['a']] : List RStr), ('\n' : Char) ∉ l) ∧
    1 + ([['a']] : List RStr).length ≤ ([['x'], ['a']] : List RStr).length ∧
    ((([['x'], ['a']] : List RStr).drop 1).take ([['a']] : List RStr).length).map trim =
      ([['a']] : List RStr).map trim ∧
    (∃ j, find_in_file_lines [['x'], ['a']] [['a']] = some j ∧
      ((([['x'], ['a']] : List RStr).drop j).take ([['a']] : List RStr).length).map trim =
        ([['a']] : List RStr).map trim ∧
      ∀ m, m < j → ((([['x'], ['a']] : List RStr).drop m).take
        ([['a']] : List RStr).length).map trim ≠ ([['a']] : List RStr).map trim) :=
  ⟨by decide, by decide, by decide, by decide, by decide,
    claim_C1_amended [['x'], ['a']] [['a']] 1 (by decide) (by decide) (by decide)
      (by decide) (by decide)⟩

/-- C1 counterexample: the needle `["a", "", "b"]` equals — verbatim, so
in particular after whitespace-trimming each line — the window of
`file_lines = ["a", "", "b"]` starting at index 0, yet
`find_in_file_lines` returns `none`: the blank line is dropped from the
normalized needle (`"a\nb"`) but kept in the normalized window
(`"a\n\nb"`), so the best distance is 1 > 5% of the 3-character needle. -/
theorem claim_C1_counterexample :
    ((([['a'], [], ['b']] : List RStr).drop 0).take
        ([['a'], [], ['b']] : List RStr).length).map trim =
      ([['a'], [], ['b']] : List RStr).map trim ∧
    find_in_file_lines [['a'], [], ['b']] [['a'], [], ['b']] = none :=
  ⟨by decide, by decide⟩

/-! ### Claims about the splice commands -/

theorem echoTrim_eq_claimEcho (insert0 marker : List RStr) :
    echoTrim insert0 marker = claimEcho insert0 marker := by
  unfold echoTrim claimEcho
  by_cases h : (insert0.take marker.length).map trim = marker.map trim
  · have hlen : marker.length ≤ insert0.length := by
      have hl := congrArg List.length h
      rw [List.length_map, List.length_map, List.length_take] at hl
      omega
    rw [if_pos ⟨hlen, h⟩, if_pos h]
  · rw [if_neg (fun hc => h hc.2), if_neg h]

/-- C7: in both `InsertBefore` and `InsertAfter`, exactly the leading
insert lines that trim-equal the marker lines are dropped before the
splice, and otherwise the insert is spliced unchanged (`claimEcho` is
that rule, stated as in the claim; the source's extra explicit length
guard is equivalent). -/
theorem claim_C7 (file_lines insert0 marker : List RStr) (idx : Nat)
    (hfind : find_in_file_lines file_lines marker = some idx)
    (hguard : ¬ (marker.length = 0 ∧ file_lines = []))
    (hbound : idx + marker.length ≤ file_lines.length)
    (hpos : idx + marker.length ≠ 0) :
    insertBeforeLines file_lines insert0 marker =
      .ok (file_lines.take idx ++ claimEcho insert0 marker ++ file_lines.drop idx) ∧
    insertAfterLines file_lines insert0 marker =
      .ok (file_lines.take (idx + marker.length) ++ claimEcho insert0 marker ++
        file_lines.drop (idx + marker.length)) := by
  constructor
  · have h1 : insertBeforeLines file_lines insert0 marker =
        .ok (file_lines.take idx ++ echoTrim insert0 marker ++ file_lines.drop idx) := by
      unfold insertBeforeLines
      rw [hfind]
    rw [h1, echoTrim_eq_claimEcho]
  · have h1 : insertAfterLines file_lines insert0 marker =
        .ok (file_lines.take (idx + marker.length) ++ echoTrim insert0 marker ++
          file_lines.drop (idx + marker.length)) := by
      unfold insertAfterLines
      rw [if_neg hguard, hfind]
      exact if_neg (by omega)
    rw [h1, echoTrim_eq_claimEcho]

/-- C7 witness: file `["a"]`, marker `["a"]`, insert `["a", "b"]`; the
leading insert line trim-equals the marker, so only `["b"]` is spliced. -/
theorem claim_C7_witness :
    find_in_file_lines [['a']] [['a']] = some 0 ∧
    ¬ (([['a']] : List RStr).length = 0 ∧ ([['a']] : List RStr) = []) ∧
    0 + ([['a']] : List RStr).length ≤ ([['a']] : List RStr).length ∧
    0 + ([['a']] : List RStr).length ≠ 0 ∧
    (insertBeforeLines [['a']] [['a'], ['b']] [['a']] =
      .ok (([['a']] : List RStr).take 0 ++ claimEcho [['a'], ['b']] [['a']] ++
        ([['a']] : List RStr).drop 0) ∧
    insertAfterLines [['a']] [['a'], ['b']] [['a']] =
      .ok (([['a']] : List RStr).take (0 + ([['a']] : List RStr).length) ++
        claimEcho [['a'], ['b']] [['a']] ++
        ([['a']] : List RStr).drop (0 + ([['a']] : List RStr).length))) :=
  ⟨by decide, by decide, by decide, by decide,
    claim_C7 [['a']] [['a'], ['b']] [['a']] 0 (by decide) (by decide) (by decide) (by decide)⟩

/-- C3: the claim is right and the code is wrong.  The `InsertAfter`
special case tests `marker_lines.len() == 0` (the raw line count), not
emptiness after whitespace-filtering.  For `marker = [""]` on a file with
zero lines the special branch is skipped, the blank marker is located at
index 0 by `find_in_file_lines`, and the slice
`file_lines[..=0 + 1 - 1]` panics on the empty slice — the file never
receives the insert lines `["line one"]`. -/
theorem claim_C3 :
    insertAfterLines [] [['l', 'i', 'n', 'e', ' ', 'o', 'n', 'e']] [[]] =
      EditResult.panicked := by decide

/-! ### Claims about path containment and the filesystem commands -/

/-- C4, amended: a record whose filename is absolute or whose first
component is a parent-traversal segment is rejected before any
filesystem effect — it is skipped and the batch continues unchanged on
the remaining records.  (Parent traversal after the first component is
not rejected; see the counterexample.) -/
theorem claim_C4_amended (fs : FS) (c : Change) (rest : List Change)
    (h : c.filename.absolute = true ∨ startsWithParent c.filename.comps = true) :
    is_file_in_current_directory c.filename = false ∧
    runChanges fs (c :: rest) = runChanges fs rest := by
  have hfalse : is_file_in_current_directory c.filename = false := by
    unfold is_file_in_current_directory
    rcases h with h | h <;> simp [h]
  refine ⟨hfalse, ?_⟩
  conv_lhs => unfold runChanges
  rw [hfalse]
  simp

/-- C4 witness: a record with the absolute filename `/` is skipped and
the (empty) batch tail runs on the unchanged filesystem. -/
theorem claim_C4_witness :
    ((⟨true, []⟩ : RPath).absolute = true ∨
      startsWithParent (⟨true, []⟩ : RPath).comps = true) ∧
    (is_file_in_current_directory ⟨true, []⟩ = false ∧
      runChanges (fun _ => none) [⟨⟨true, []⟩, Command.deleteFile, []⟩] =
        runChanges (fun _ => none) []) :=
  ⟨Or.inl rfl,
    claim_C4_amended (fun _ => none) ⟨⟨true, []⟩, Command.deleteFile, []⟩ [] (Or.inl rfl)⟩

/-- C4 counterexample: the relative path `a/../../b` escapes the working
directory via parent-traversal segments, yet `is_file_in_current_directory`
accepts it (only a *leading* `..` is rejected) and a `CreateFile` record
for it is executed — a filesystem write, not a skip. -/
theorem claim_C4_counterexample :
    escapesWorkingDir ⟨false, [PathComp.normal ['a'], PathComp.parentDir,
      PathComp.parentDir, PathComp.normal ['b']]⟩ = true ∧
    is_file_in_current_directory ⟨false, [PathComp.normal ['a'], PathComp.parentDir,
      PathComp.parentDir, PathComp.normal ['b']]⟩ = true ∧
    runChanges (fun _ => none)
      [⟨⟨false, [PathComp.normal ['a'], PathComp.parentDir, PathComp.parentDir,
          PathComp.normal ['b']]⟩, Command.createFile [['h', 'i']], []⟩]
      ⟨false, [PathComp.normal ['a'], PathComp.parentDir, PathComp.parentDir,
        PathComp.normal ['b']]⟩ = some (joinNL [['h', 'i']]) :=
  ⟨by decide, by decide, by decide⟩

/-- C8: `CreateFile` on an already-existing path reports the
already-exists failure and leaves the whole filesystem — in particular
the existing file's content — byte-for-byte unchanged. -/
theorem claim_C8 (fs : FS) (p : RPath) (new_lines : List RStr) (c0 : RStr)
    (h : fs p = some c0) :
    (applyCommand fs p (Command.createFile new_lines)).1 = Outcome.alreadyExists ∧
    (∀ q, (applyCommand fs p (Command.createFile new_lines)).2 q = fs q) ∧
    (applyCommand fs p (Command.createFile new_lines)).2 p = some c0 := by
  have hs : (fs p).isSome = true := by rw [h]; rfl
  simp only [applyCommand]
  rw [if_pos hs]
  exact ⟨rfl, fun q => rfl, h⟩

/-- C8 witness: a filesystem holding `"x"` at `f`; `CreateFile f ["y"]`
reports already-exists and `f` still holds `"x"`. -/
theorem claim_C8_witness :
    ((fun q => if q = (⟨false, [PathComp.normal ['f']]⟩ : RPath)
        then some ['x'] else none) : FS) ⟨false, [PathComp.normal ['f']]⟩ = some ['x'] ∧
    ((applyCommand (fun q => if q = (⟨false, [PathComp.normal ['f']]⟩ : RPath)
        then some ['x'] else none) ⟨false, [PathComp.normal ['f']]⟩
        (Command.createFile [['y']])).1 = Outcome.alreadyExists ∧
      (∀ q, (applyCommand (fun q => if q = (⟨false, [PathComp.normal ['f']]⟩ : RPath)
        then some ['x'] else none) ⟨false, [PathComp.normal ['f']]⟩
        (Command.createFile [['y']])).2 q =
        (fun q => if q = (⟨false, [PathComp.normal ['f']]⟩ : RPath)
          then some ['x'] else none : FS) q) ∧
      (applyCommand (fun q => if q = (⟨false, [PathComp.normal ['f']]⟩ : RPath)
        then some ['x'] else none) ⟨false, [PathComp.normal ['f']]⟩
        (Command.createFile [['y']])).2 ⟨false, [PathComp.normal ['f']]⟩ = some ['x']) :=
  ⟨by decide,
    claim_C8 (fun q => if q = (⟨false, [PathComp.normal ['f']]⟩ : RPath)
      then some ['x'] else none) ⟨false, [PathComp.normal ['f']]⟩ [['y']] ['x'] (by decide)⟩

/-- C10: the containment check gates only the record's `filename`; an
in-directory `filename` makes the rename run whatever `new_filename` is,
so the file's content moves to `new_filename` — including an absolute or
escaping destination (see the witness, which moves a file to an absolute
path). -/
theorem claim_C10 (fs : FS) (fname nname : RPath) (r c0 : RStr)
    (hin : is_file_in_current_directory fname = true)
    (hfs : fs fname = some c0) :
    (runChanges fs [⟨fname, Command.renameFile nname, r⟩]) nname = some c0 ∧
    (fname ≠ nname → (runChanges fs [⟨fname, Command.renameFile nname, r⟩]) fname = none) := by
  unfold runChanges applyCommand
  simp only [hin, hfs]
  constructor
  · simp [runChanges]
  · intro h
    simp [runChanges, h]

/-- C10 witness: the file `f` (relative, in-directory) holding `"x"` is
renamed to the absolute path `/t`; the rename runs and the content moves
to the absolute destination. -/
theorem claim_C10_witness :
    is_file_in_current_directory ⟨false, [PathComp.normal ['f']]⟩ = true ∧
    ((fun q => if q = (⟨false, [PathComp.normal ['f']]⟩ : RPath)
        then some ['x'] else none) : FS) ⟨false, [PathComp.normal ['f']]⟩ = some ['x'] ∧
    (⟨true, [PathComp.normal ['t']]⟩ : RPath).absolute = true ∧
    ((runChanges (fun q => if q = (⟨false, [PathComp.normal ['f']]⟩ : RPath)
        then some ['x'] else none)
        [⟨⟨false, [PathComp.normal ['f']]⟩,
          Command.renameFile ⟨true, [PathComp.normal ['t']]⟩, []⟩])
        ⟨true, [PathComp.normal ['t']]⟩ = some ['x'] ∧
      ((⟨false, [PathComp.normal ['f']]⟩ : RPath) ≠ ⟨true, [PathComp.normal ['t']]⟩ →
        (runChanges (fun q => if q = (⟨false, [PathComp.normal ['f']]⟩ : RPath)
          then some ['x'] else none)
          [⟨⟨false, [PathComp.normal ['f']]⟩,
            Command.renameFile ⟨true, [PathComp.normal ['t']]⟩, []⟩])
          ⟨false, [PathComp.normal ['f']]⟩ = none)) :=
  ⟨by decide, by decide, by decide,
    claim_C10 (fun q => if q = (⟨false, [PathComp.normal ['f']]⟩ : RPath)
        then some ['x'] else none)
      ⟨false, [PathComp.normal ['f']]⟩ ⟨true, [PathComp.normal ['t']]⟩ [] ['x']
      (by decide) (by decide)⟩

/-! ### The round trip of InsertAfter and Delete -/

theorem take_append_exact {A B : List RStr} {n : Nat} (h : A.length = n) :
    (A ++ B).take n = A := by
  subst h
  exact List.take_left A B

theorem drop_append_exact {A B : List RStr} {n : Nat} (h : A.length = n) :
    (A ++ B).drop n = B := by
  subst h
  exact List.drop_left A B

theorem getLast?_append_right {A B : List RStr} (h : B ≠ []) :
    (A ++ B).getLast? = B.getLast? := by
  rw [List.getLast?_append]
  cases hb : B.getLast? with
  | none => exact absurd (List.getLast?_eq_none_iff.mp hb) h
  | some y => rfl

theorem getLast?_drop_of_ne_nil {l : List RStr} {n : Nat} (h : l.drop n ≠ []) :
    (l.drop n).getLast? = l.getLast? := by
  conv_rhs => rw [← List.take_append_drop n l]
  exact (getLast?_append_right h).symm

/-- C5, amended: over a file content that is the newline-join of its own
lines (in particular without a trailing newline), whose lines and whose
actually-inserted lines are clean (no embedded newline, no trailing
carriage return) and do not end in an empty line, an `InsertAfter` that
locates its marker exactly at `p`, followed by a `Delete` of the
actually-inserted lines that locates them at the spliced position
`p + marker.length`, restores the file to its previous byte content. -/
theorem claim_C5_amended (S0 : RStr) (insert0 marker : List RStr) (p : Nat)
    (hjoin : joinNL (rustLines S0) = S0)
    (hclean0 : ∀ l ∈ rustLines S0, cleanLine l)
    (hlast0 : (rustLines S0).getLast? ≠ some [])
    (hmk : marker ≠ [])
    (hfind : find_in_file_lines (rustLines S0) marker = some p)
    (hexact : (((rustLines S0).drop p).take marker.length).map trim = marker.map trim)
    (hcleanI : ∀ l ∈ echoTrim insert0 marker, cleanLine l)
    (hlastI : (echoTrim insert0 marker).getLast? ≠ some [])
    (hdel : (insertAfterContent S0 insert0 marker).bind
        (fun s1 => find_in_file_lines (rustLines s1) (echoTrim insert0 marker)) =
        some (p + marker.length)) :
    ∃ s1, insertAfterContent S0 insert0 marker = some s1 ∧
      deleteContent s1 (echoTrim insert0 marker) = some S0 := by
  have hk : 0 < marker.length := List.length_pos.mpr hmk
  have hlen0 : p + marker.length ≤ (rustLines S0).length := by
    have hl := congrArg List.length hexact
    rw [List.length_map, List.length_map, List.length_take, List.length_drop] at hl
    omega
  have hins : insertAfterLines (rustLines S0) insert0 marker =
      .ok ((rustLines S0).take (p + marker.length) ++ echoTrim insert0 marker ++
        (rustLines S0).drop (p + marker.length)) := by
    unfold insertAfterLines
    rw [if_neg (fun hc => by omega : ¬ (marker.length = 0 ∧ rustLines S0 = [])), hfind]
    exact if_neg (by omega)
  have hS1 : insertAfterContent S0 insert0 marker =
      some (joinNL ((rustLines S0).take (p + marker.length) ++ echoTrim insert0 marker ++
        (rustLines S0).drop (p + marker.length))) := by
    unfold insertAfterContent
    rw [hins]
  have hclean1 : ∀ l ∈ (rustLines S0).take (p + marker.length) ++ echoTrim insert0 marker ++
      (rustLines S0).drop (p + marker.length), cleanLine l := by
    intro l hl
    rcases List.mem_append.mp hl with hl | hl
    · rcases List.mem_append.mp hl with hl | hl
      · exact hclean0 l (List.take_subset _ _ hl)
      · exact hcleanI l hl
    · exact hclean0 l (List.drop_subset _ _ hl)
  have hlast1 : ((rustLines S0).take (p + marker.length) ++ echoTrim insert0 marker ++
      (rustLines S0).drop (p + marker.length)).getLast? ≠ some [] := by
    by_cases hB : (rustLines S0).drop (p + marker.length) = []
    · rw [hB, List.append_nil]
      by_cases hT : echoTrim insert0 marker = []
      · rw [hT, List.append_nil]
        have hfull : (rustLines S0).length ≤ p + marker.length := by
          have hlb := congrArg List.length hB
          rw [List.length_drop] at hlb
          simp only [List.length_nil] at hlb
          omega
        rw [List.take_of_length_le hfull]
        exact hlast0
      · rw [getLast?_append_right hT]
        exact hlastI
    · rw [List.append_assoc,
        getLast?_append_right (fun hc => hB (List.append_eq_nil.mp hc).2),
        getLast?_append_right hB, getLast?_drop_of_ne_nil hB]
      exact hlast0
  have hread : rustLines (joinNL ((rustLines S0).take (p + marker.length) ++
      echoTrim insert0 marker ++ (rustLines S0).drop (p + marker.length))) =
      (rustLines S0).take (p + marker.length) ++ echoTrim insert0 marker ++
        (rustLines S0).drop (p + marker.length) :=
    rustLines_joinNL _ (fun l hl => (hclean1 l hl).1) (fun l hl => (hclean1 l hl).2) hlast1
  rw [hS1] at hdel
  simp only [Option.some_bind] at hdel
  rw [hread] at hdel
  have hlenA : ((rustLines S0).take (p + marker.length)).length = p + marker.length := by
    rw [List.length_take]
    omega
  have htake : ((rustLines S0).take (p + marker.length) ++ echoTrim insert0 marker ++
      (rustLines S0).drop (p + marker.length)).take (p + marker.length) =
      (rustLines S0).take (p + marker.length) := by
    rw [List.append_assoc]
    exact take_append_exact hlenA
  have hdrop : ((rustLines S0).take (p + marker.length) ++ echoTrim insert0 marker ++
      (rustLines S0).drop (p + marker.length)).drop
        (p + marker.length + (echoTrim insert0 marker).length) =
      (rustLines S0).drop (p + marker.length) :=
    drop_append_exact (by rw [List.length_append, hlenA])
  have hlen1 : ((rustLines S0).take (p + marker.length) ++ echoTrim insert0 marker ++
      (rustLines S0).drop (p + marker.length)).length =
      p + marker.length + (echoTrim insert0 marker).length +
        ((rustLines S0).drop (p + marker.length)).length := by
    rw [List.length_append, List.length_append, hlenA]
  have hdelete : deleteLines ((rustLines S0).take (p + marker.length) ++
      echoTrim insert0 marker ++ (rustLines S0).drop (p + marker.length))
      (echoTrim insert0 marker) = .ok ((rustLines S0).take (p + marker.length) ++
        (rustLines S0).drop (p + marker.length)) := by
    have hstep : deleteLines ((rustLines S0).take (p + marker.length) ++
        echoTrim insert0 marker ++ (rustLines S0).drop (p + marker.length))
        (echoTrim insert0 marker) =
        .ok (((rustLines S0).take (p + marker.length) ++ echoTrim insert0 marker ++
          (rustLines S0).drop (p + marker.length)).take (p + marker.length) ++
          ((rustLines S0).take (p + marker.length) ++ echoTrim insert0 marker ++
          (rustLines S0).drop (p + marker.length)).drop
            (p + marker.length + (echoTrim insert0 marker).length)) := by
      unfold deleteLines
      rw [hdel]
      exact if_neg (by omega)
    rw [hstep, htake, hdrop]
  refine ⟨_, hS1, ?_⟩
  unfold deleteContent
  rw [hread, hdelete, List.take_append_drop]
  show some (joinNL (rustLines S0)) = some S0
  rw [hjoin]

/-- C5 witness: content `"a"`, marker `["a"]` located exactly at 0,
insert `["b"]`; the insert produces `"a\nb"` and deleting `["b"]`
restores `"a"`. -/
theorem claim_C5_witness :
    joinNL (rustLines ['a']) = ['a'] ∧
    (∀ l ∈ rustLines ['a'], cleanLine l) ∧
    (rustLines ['a']).getLast? ≠ some [] ∧
    ([['a']] : List RStr) ≠ [] ∧
    find_in_file_lines (rustLines ['a']) [['a']] = some 0 ∧
    (((rustLines ['a']).drop 0).take ([['a']] : List RStr).length).map trim =
      ([['a']] : List RStr).map trim ∧
    (∀ l ∈ echoTrim [['b']] [['a']], cleanLine l) ∧
    (echoTrim [['b']] [['a']]).getLast? ≠ some [] ∧
    (insertAfterContent ['a'] [['b']] [['a']]).bind
      (fun s1 => find_in_file_lines (rustLines s1) (echoTrim [['b']] [['a']])) =
      some (0 + ([['a']] : List RStr).length) ∧
    (∃ s1, insertAfterContent ['a'] [['b']] [['a']] = some s1 ∧
      deleteContent s1 (echoTrim [['b']] [['a']]) = some ['a']) :=
  ⟨by decide, by decide, by decide, by decide, by decide, by decide, by decide, by decide,
    by decide,
    claim_C5_amended ['a'] [['b']] [['a']] 0 (by decide) (by decide) (by decide) (by decide)
      (by decide) (by decide) (by decide) (by decide) (by decide)⟩

/-- C5 counterexample: original content `"a\n"` (with a trailing
newline); `InsertAfter` locates marker `["a"]` exactly, inserts `["b"]`,
and a `Delete` of the same inserted content `["b"]` then yields `"a"` —
not the original byte content `"a\n"`: the whole-file rewrite removed the
trailing newline. -/
theorem claim_C5_counterexample :
    (insertAfterContent ['a', '\n'] [['b']] [['a']]).bind
      (fun s1 => deleteContent s1 [['b']]) = some ['a'] ∧
    (['a'] : RStr) ≠ ['a', '\n'] :=
  ⟨by decide, by decide⟩

/-! ### The shape of the written content -/

/-- C9, amended: every successful `InsertBefore`, `InsertAfter` or
`Delete` writes exactly the new line sequence joined with single newline
separators (no terminator appended by the join), with the lines outside
the spliced range preserved; one trailing newline of the original (that
is, appending `"\n"` to a nonempty content not already ending in `"\n"`
or `"\r"`) never changes what is read or written.  The written content can still
end in a newline when the new line sequence ends in an empty line (see
the counterexample). -/
theorem claim_C9_amended :
    (∀ (s : RStr) (insert0 marker : List RStr) (t : RStr),
      insertBeforeContent s insert0 marker = some t →
      ∃ idx, t = joinNL ((rustLines s).take idx ++ claimEcho insert0 marker ++
        (rustLines s).drop idx)) ∧
    (∀ (s : RStr) (insert0 marker : List RStr) (t : RStr),
      insertAfterContent s insert0 marker = some t →
      ∃ idx, t = joinNL ((rustLines s).take idx ++ claimEcho insert0 marker ++
        (rustLines s).drop idx)) ∧
    (∀ (s : RStr) (target : List RStr) (t : RStr),
      deleteContent s target = some t →
      ∃ idx, t = joinNL ((rustLines s).take idx ++
        (rustLines s).drop (idx + target.length))) ∧
    (∀ u : RStr, u ≠ [] → u.getLast? ≠ some '\n' → u.getLast? ≠ some '\r' →
      rustLines (u ++ ['\n']) = rustLines u) ∧
    (∀ u : RStr, u ≠ [] → u.getLast? ≠ some '\n' → u.getLast? ≠ some '\r' →
      ∀ (insert0 marker target : List RStr),
        insertBeforeContent (u ++ ['\n']) insert0 marker =
          insertBeforeContent u insert0 marker ∧
        insertAfterContent (u ++ ['\n']) insert0 marker =
          insertAfterContent u insert0 marker ∧
        deleteContent (u ++ ['\n']) target = deleteContent u target) := by
  refine ⟨?_, ?_, ?_, ?_, ?_⟩
  · intro s insert0 marker t h
    unfold insertBeforeContent insertBeforeLines at h
    cases hf : find_in_file_lines (rustLines s) marker with
    | none => rw [hf] at h; simp at h
    | some idx =>
        rw [hf] at h
        have h' : some (joinNL ((rustLines s).take idx ++ echoTrim insert0 marker ++
          (rustLines s).drop idx)) = some t := h
        refine ⟨idx, ?_⟩
        rw [← echoTrim_eq_claimEcho]
        exact (Option.some.inj h').symm
  · intro s insert0 marker t h
    unfold insertAfterContent insertAfterLines at h
    by_cases hg : marker.length = 0 ∧ rustLines s = []
    · rw [if_pos hg] at h
      have h' : some (joinNL insert0) = some t := h
      have hm : marker = [] := List.length_eq_zero.mp hg.1
      subst hm
      refine ⟨0, ?_⟩
      rw [hg.2]
      have hce : claimEcho insert0 [] = insert0 := by simp [claimEcho]
      rw [hce]
      simp only [List.take_nil, List.drop_nil, List.nil_append, List.append_nil]
      exact (Option.some.inj h').symm
    · rw [if_neg hg] at h
      cases hf : find_in_file_lines (rustLines s) marker with
      | none => rw [hf] at h; simp at h
      | some idx =>
          simp only [hf] at h
          by_cases hp : idx + marker.length = 0 ∨
            (rustLines s).length < idx + marker.length
          · rw [if_pos hp] at h
            simp at h
          · rw [if_neg hp] at h
            have h' : some (joinNL ((rustLines s).take (idx + marker.length) ++
              echoTrim insert0 marker ++
              (rustLines s).drop (idx + marker.length))) = some t := h
            refine ⟨idx + marker.length, ?_⟩
            rw [← echoTrim_eq_claimEcho]
            exact (Option.some.inj h').symm
  · intro s target t h
    unfold deleteContent deleteLines at h
    cases hf : find_in_file_lines (rustLines s) target with
    | none => rw [hf] at h; simp at h
    | some start =>
        simp only [hf] at h
        by_cases hp : (rustLines s).length < start + target.length
        · rw [if_pos hp] at h
          simp at h
        · rw [if_neg hp] at h
          have h' : some (joinNL ((rustLines s).take start ++
            (rustLines s).drop (start + target.length))) = some t := h
          exact ⟨start, (Option.some.inj h').symm⟩
  · intro u h1 h2 h3
    exact rustLines_append_newline u h1 h2 h3
  · intro u h1 h2 h3 insert0 marker target
    have hD := rustLines_append_newline u h1 h2 h3
    refine ⟨?_, ?_, ?_⟩
    · unfold insertBeforeContent
      rw [hD]
    · unfold insertAfterContent
      rw [hD]
    · unfold deleteContent
      rw [hD]

/-- C9 witness: appending one trailing newline to `"x"` does not change
its lines, and a successful `InsertBefore` on `"x"` writes exactly the
spliced line sequence joined with a single newline. -/
theorem claim_C9_witness :
    (['x'] : RStr) ≠ [] ∧ (['x'] : RStr).getLast? ≠ some '\n' ∧
    (['x'] : RStr).getLast? ≠ some '\r' ∧
    rustLines (['x'] ++ ['\n']) = rustLines ['x'] ∧
    insertBeforeContent ['x'] [['c']] [['x']] = some ['c', '\n', 'x'] ∧
    (∃ idx, (['c', '\n', 'x'] : RStr) = joinNL ((rustLines ['x']).take idx ++
      claimEcho [['c']] [['x']] ++ (rustLines ['x']).drop idx)) := by
  obtain ⟨hA, hB, hC, hD, hE⟩ := claim_C9_amended
  exact ⟨by decide, by decide, by decide, hD ['x'] (by decide) (by decide) (by decide),
    by decide, hA ['x'] [['c']] [['x']] ['c', '\n', 'x'] (by decide)⟩

/-- C9 counterexample: the content `"x\n\n"` ends in a newline; a
successful `InsertBefore` at the file's start writes `"c\nx\n"`, which
still ends in a newline — the claim's "no trailing newline in the
written file / the original's trailing newline is always removed" fails
when the final line is empty. -/
theorem claim_C9_counterexample :
    insertBeforeContent ['x', '\n', '\n'] [['c']] [['x']] = some ['c', '\n', 'x', '\n'] ∧
    (['c', '\n', 'x', '\n'] : RStr).getLast? = some '\n' ∧
    (['x', '\n', '\n'] : RStr).getLast? = some '\n' :=
  ⟨by decide, by decide, by decide⟩
